import Mathlib

set_option maxHeartbeats 1000000

/-! Shallow embedding of the go-cmdargs command line arguments parser
(cmdargs.go and datatypes.go), together with theorems checking the
natural-language specification against it. -/

namespace Cmdargs

/-- Models `getOptionName` (cmdargs.go): strips a leading `--` or `-` prefix
from an option name. -/
def getOptionName (name : String) : String :=
  if 2 ≤ name.length ∧ name.take 2 = "--" then name.drop 2
  else if 1 ≤ name.length ∧ name.take 1 = "-" then name.drop 1
  else name

/-- Models `isOption` (cmdargs.go): whether a token qualifies as an option
name. -/
def isOption (name : String) : Bool :=
  (decide (2 < name.length) && (name.take 2 == "--")) ||
  (decide (1 < name.length) && (name.take 1 == "-"))

/-- Character class of Go `strings.TrimSpace` (its ASCII part; the Unicode
space classes do not occur in this development). -/
def isSpaceChar (c : Char) : Bool :=
  c = ' ' ∨ c = '\t' ∨ c = '\n' ∨ c = '\r' ∨ c = '\x0b' ∨ c = '\x0c'

/-- Models Go `strings.TrimSpace`. -/
def trimSpace (s : String) : String :=
  String.mk (((s.toList.dropWhile isSpaceChar).reverse.dropWhile isSpaceChar).reverse)

/-- Splitting a character list at every `=`. -/
def splitEqChars : List Char → List (List Char)
  | [] => [[]]
  | c :: cs =>
    if c = '=' then [] :: splitEqChars cs
    else
      match splitEqChars cs with
      | [] => [[c]]
      | g :: gs => (c :: g) :: gs

/-- Models Go `strings.Split(s, "=")` (single-character separator: the list
of `=`-delimited fragments, never empty). -/
def splitEq (s : String) : List String := (splitEqChars s.toList).map String.mk

/-- Models `trimArg` (cmdargs.go): trims surrounding whitespace, then strips
double quotes: the first and last characters must both be `"` for the leading
quote to go; the trailing quote goes if the shortened token still ends with
one. -/
def trimArg (arg0 : String) : String :=
  let cs := (trimSpace arg0).toList
  if 0 < cs.length ∧ cs.headD ' ' = '"' ∧ cs.getLastD ' ' = '"' then
    let a := cs.drop 1
    if 0 < a.length ∧ a.getLastD ' ' = '"' then String.mk a.dropLast else String.mk a
  else String.mk cs

/-- Models `paramType` (cmdargs.go): a single parameter definition. In Go this
is the target of a `*paramType` pointer. -/
structure ParamDefn where
  name : String
  numArgs : Int
deriving DecidableEq

/-- Models `optionType` (cmdargs.go): one parsed option occurrence. `Generic`
values are modelled by their underlying `String`, the only implementation of
the interface in the source. -/
structure OptionEntry where
  name : String
  value : List String
deriving DecidableEq

/-- Models the Go `Parameter` struct. Go stores `*paramType` pointers in the
alias map; the model makes pointer identity explicit through a heap:
`aliases` maps a normalized name to an index into `heap`. -/
structure Parameter where
  heap : List ParamDefn
  aliases : List (String × Nat)
  options : List OptionEntry
  extra : List String
  self : String
deriving DecidableEq

/-- Models `Create`. -/
def Create : Parameter := ⟨[], [], [], [], ""⟩

/-- Go map lookup `m[k]`: the alias map keeps at most one binding per key, and
the model reads the first one. -/
def lookupAlias (m : List (String × Nat)) (k : String) : Option Nat :=
  (m.find? (fun e => e.1 == k)).map (fun e => e.2)

/-- Go map assignment `m[k] = v`. -/
def mapInsert (m : List (String × Nat)) (k : String) (v : Nat) : List (String × Nat) :=
  (k, v) :: m.filter (fun e => e.1 != k)

/-- Dereferences a definition pointer (a heap index). -/
def defAt (p : Parameter) (id : Nat) : ParamDefn :=
  p.heap.getD id ⟨"", 0⟩

/-- The alias-registration loop of `AddParameter`: binds every nonempty
normalized alias to the definition `t`. -/
def insAll (m : List (String × Nat)) (t : Nat) (ks : List String) : List (String × Nat) :=
  ks.foldl (fun m2 a => if 0 < a.length then mapInsert m2 a t else m2) m

/-- Models `AddParameter` (cmdargs.go). -/
def AddParameter (p : Parameter) (name0 : String) (aliases0 : List String)
    (numArgs0 : Int) : Parameter :=
  let name := getOptionName name0
  if name.length = 0 then p else
  let als := aliases0.map getOptionName
  let numArgs := if numArgs0 < 0 then 0 else numArgs0
  let pr : Nat × List ParamDefn :=
    match lookupAlias p.aliases name with
    | some i => (i, p.heap.set i ⟨(defAt p i).name, numArgs⟩)
    | none => (p.heap.length, p.heap ++ [⟨name, numArgs⟩])
  { p with heap := pr.2, aliases := insAll (mapInsert p.aliases name pr.1) pr.1 als }

/-- Models `RemoveParameter` (cmdargs.go): deletes every alias whose
definition carries the same canonical name as the resolved definition. -/
def RemoveParameter (p : Parameter) (name0 : String) : Parameter × Bool :=
  match lookupAlias p.aliases (getOptionName name0) with
  | none => (p, false)
  | some id =>
    ({ p with aliases :=
        p.aliases.filter (fun e => (defAt p e.2).name != (defAt p id).name) }, true)

/-- Models `getLongOptionName` (cmdargs.go). -/
def getLongOptionName (p : Parameter) (alias0 : String) : String :=
  let a := getOptionName alias0
  if 0 < a.length then
    match lookupAlias p.aliases a with
    | some id => (defAt p id).name
    | none => ""
  else ""

/-- The error outcomes of `Evaluate`. `indexOutOfRange` models a Go runtime
index-out-of-range panic. -/
inductive EvalErr where
  | unrecognized : String → EvalErr
  | insufficient : Int → Int → EvalErr
  | deadlock : EvalErr
  | indexOutOfRange : EvalErr
deriving DecidableEq

/-- Models the `=`-argument join loop of `evalArg`. The source indexes the
outer `args` array (not the split fragments) while bounding the loop by the
fragment count; `none` models the runtime panic when `args[i]` is out of
range. -/
def joinIdx (args : List String) : List Nat → String → Option String
  | [], s => some s
  | i :: is, s =>
    match args.get? i with
    | some a => joinIdx args is (s ++ "=" ++ a)
    | none => none

/-- The quadruple returned by `evalArg`. -/
structure EvalStep where
  name : String
  arg : OptionEntry
  newIdx : Nat
  err : Option EvalErr
deriving DecidableEq

/-- Models `evalArg` (cmdargs.go). -/
def evalArg (p : Parameter) (args : List String) (index : Nat) : EvalStep :=
  if args.length ≤ index then ⟨"", ⟨"", []⟩, index, none⟩ else
  let tok := args.getD index ""
  if isOption tok = false then ⟨"", ⟨"", []⟩, index, none⟩ else
  match splitEq tok with
  | [] => ⟨"", ⟨"", []⟩, index, none⟩
  | t0 :: ts =>
    let name := getOptionName t0
    let newIdx := index + 1
    match lookupAlias p.aliases name with
    | none => ⟨name, ⟨"", []⟩, newIdx, some (.unrecognized name)⟩
    | some id =>
      let numArgs0 := (defAt p id).numArgs
      let folded : Option (List String × Int) :=
        if 0 < numArgs0 ∧ 0 < ts.length then
          match joinIdx args (List.range' 2 (ts.length - 1)) (ts.headD "") with
          | some s => some ([trimArg s], numArgs0 - 1)
          | none => none
        else some ([], numArgs0)
      match folded with
      | none => ⟨name, ⟨"", []⟩, newIdx, some .indexOutOfRange⟩
      | some fv =>
        if (args.length : Int) - (newIdx : Int) < fv.2 then
          ⟨name, ⟨"", fv.1⟩, newIdx,
            some (.insufficient ((args.length : Int) - (newIdx : Int)) fv.2)⟩
        else
          let vals := fv.1 ++ ((args.drop newIdx).take fv.2.toNat).map trimArg
          let lname := getLongOptionName p name
          ⟨lname, ⟨lname, vals⟩, newIdx + fv.2.toNat, none⟩

/-- Models the option-parsing loop of `Evaluate`. The loop advances the index
by at least one per iteration and stops once the index reaches the end, so
with fuel `args.length + 1` the fuel-out branch is unreachable; it reuses the
deadlock error of the source. -/
def evalLoop (p : Parameter) (args : List String) :
    Nat → Nat → List OptionEntry → List OptionEntry × Nat × Option EvalErr
  | 0, idx, acc => (acc, idx, some .deadlock)
  | fuel + 1, idx, acc =>
    if idx < args.length then
      let st := evalArg p args idx
      match st.err with
      | some e => (acc, st.newIdx, some e)
      | none =>
        if st.name = "" then (acc, st.newIdx, none)
        else if st.newIdx = idx then (acc, st.newIdx, some .deadlock)
        else evalLoop p args fuel st.newIdx (acc ++ [st.arg])
    else (acc, idx, none)

/-- Models `reset` (cmdargs.go). -/
def reset (p : Parameter) : Parameter :=
  { p with options := [], extra := [], self := "" }

/-- Models `Evaluate` (cmdargs.go). The second component is the returned
error. -/
def Evaluate (p : Parameter) (args : List String) : Parameter × Option EvalErr :=
  if args.length = 0 then (p, none) else
  let p0 := reset p
  let first := args.headD ""
  let p1 := if isOption first = false then { p0 with self := first } else p0
  let idx0 := if isOption first = false then 1 else 0
  let r := evalLoop p1 args (args.length + 1) idx0 []
  let p2 := { p1 with options := r.1 }
  match r.2.2 with
  | some e => (p2, some e)
  | none => ({ p2 with extra := args.drop r.2.1 }, none)

/-- Models `GetArgSelf`. -/
def GetArgSelf (p : Parameter) : String := p.self

/-- Models `GetArgExtraLength`. -/
def GetArgExtraLength (p : Parameter) : Nat := p.extra.length

/-- Models `GetArgExtra`; `none` models the runtime panic of
`param.extra[index]` when the index passes the guard but is out of range. -/
def GetArgExtra (p : Parameter) (index : Int) : Option String :=
  if index < 0 ∨ (GetArgExtraLength p : Int) < index then some ""
  else p.extra.get? index.toNat

/-- Models `GetArgLength`. -/
def GetArgLength (p : Parameter) : Nat := p.options.length

/-- Models the Go `Argument` struct. -/
structure Argument where
  Index : Int
  Name : String
  Arguments : List String
deriving DecidableEq

/-- Models `GetArgAt` (cmdargs.go). -/
def GetArgAt (p : Parameter) (index0 : Int) : Except String Argument :=
  let index := if index0 < 0 then (p.options.length : Int) + index0 else index0
  if index < 0 ∨ (p.options.length : Int) ≤ index then
    Except.error "Parameter.GetArgNameByPosition: Invalid position"
  else
    let o := p.options.getD index.toNat ⟨"", []⟩
    Except.ok ⟨index, o.name, o.value⟩

/-- Digit value of a character in the given base, as accepted by the Go
`strconv` integer parsers. -/
def digitVal (base : Nat) (c : Char) : Option Nat :=
  let v : Option Nat :=
    if '0' ≤ c ∧ c ≤ '9' then some (c.toNat - 48)
    else if 'a' ≤ c ∧ c ≤ 'z' then some (c.toNat - 87)
    else if 'A' ≤ c ∧ c ≤ 'Z' then some (c.toNat - 55)
    else none
  match v with
  | some d => if d < base then some d else none
  | none => none

def digitsValAux (base : Nat) (acc : Nat) : List Char → Option Nat
  | [] => some acc
  | c :: cs =>
    match digitVal base c with
    | some d => digitsValAux base (acc * base + d) cs
    | none => none

/-- Value of a nonempty digit string in the given base; `none` on an empty
string or an invalid digit. -/
def digitsVal (base : Nat) (cs : List Char) : Option Nat :=
  match cs with
  | [] => none
  | _ => digitsValAux base 0 cs

/-- Base detection of Go `strconv.ParseInt`/`ParseUint` when called with base
argument 0. (Digit-separating underscores, which no claim exercises, are not
modelled.) -/
def splitBasePrefix : List Char → Nat × List Char
  | '0' :: c :: cs =>
    if c = 'x' ∨ c = 'X' then (16, cs)
    else if c = 'o' ∨ c = 'O' then (8, cs)
    else if c = 'b' ∨ c = 'B' then (2, cs)
    else (8, c :: cs)
  | cs => (10, cs)

/-- Models `strconv.ParseInt(s, 0, 64)`; `none` models a non-nil error
(invalid syntax or value outside the int64 range). -/
def parseInt0 (s : String) : Option Int :=
  let cs := s.toList
  let sg : Bool × List Char :=
    match cs with
    | '+' :: r => (false, r)
    | '-' :: r => (true, r)
    | r => (false, r)
  match sg.2 with
  | [] => none
  | _ =>
    let bp := splitBasePrefix sg.2
    match digitsVal bp.1 bp.2 with
    | none => none
    | some n =>
      if sg.1 then (if n ≤ 2 ^ 63 then some (-(n : Int)) else none)
      else (if n < 2 ^ 63 then some (n : Int) else none)

/-- Models `strconv.ParseUint(s, 0, 64)`: like `parseInt0` but signs are
rejected and the range is that of uint64. -/
def parseUint0 (s : String) : Option Nat :=
  match s.toList with
  | [] => none
  | '+' :: _ => none
  | '-' :: _ => none
  | cs =>
    let bp := splitBasePrefix cs
    match digitsVal bp.1 bp.2 with
    | none => none
    | some n => if n < 2 ^ 64 then some n else none

/-- Models `strconv.ParseBool`. -/
def parseBool (s : String) : Option Bool :=
  if s = "1" ∨ s = "t" ∨ s = "T" ∨ s = "TRUE" ∨ s = "true" ∨ s = "True" then some true
  else if s = "0" ∨ s = "f" ∨ s = "F" ∨ s = "FALSE" ∨ s = "false" ∨ s = "False" then
    some false
  else none

/-- Decimal value of a digit string. -/
def digitsToNat (cs : List Char) : Nat :=
  cs.foldl (fun a c => a * 10 + (c.toNat - 48)) 0

/-- Exponent part of a decimal floating point literal. -/
def parseExp (cs : List Char) : Option Int :=
  let sg : Bool × List Char :=
    match cs with
    | '+' :: r => (false, r)
    | '-' :: r => (true, r)
    | r => (false, r)
  match sg.2 with
  | [] => none
  | r =>
    if r.all Char.isDigit then
      some (if sg.1 then -(digitsToNat r : Int) else (digitsToNat r : Int))
    else none

/-- Models `strconv.ParseFloat(s, 64)` on decimal syntax, producing the exact
rational value of the literal in place of the rounded IEEE double. Every
input these theorems feed to it has a value whose distance from the nearest
integer far exceeds the IEEE-double rounding error, so the truncations proved
below coincide with the Go results. -/
def parseFloat64 (s : String) : Option Rat :=
  let cs := s.toList
  let sg : Bool × List Char :=
    match cs with
    | '+' :: r => (false, r)
    | '-' :: r => (true, r)
    | r => (false, r)
  let ip := sg.2.takeWhile Char.isDigit
  let r1 := sg.2.dropWhile Char.isDigit
  let fr : List Char × List Char :=
    match r1 with
    | '.' :: r => (r.takeWhile Char.isDigit, r.dropWhile Char.isDigit)
    | r => ([], r)
  if ip.length = 0 ∧ fr.1.length = 0 then none else
  let e? : Option Int :=
    match fr.2 with
    | [] => some 0
    | 'e' :: r => parseExp r
    | 'E' :: r => parseExp r
    | _ => none
  match e? with
  | none => none
  | some e =>
    let m : Int := (digitsToNat (ip ++ fr.1) : Int)
    let t : Int := e - (fr.1.length : Int)
    let mag : Rat :=
      if 0 ≤ t then mkRat (m * (10 : Int) ^ t.toNat) 1
      else mkRat m ((10 : Nat) ^ (-t).toNat)
    some (if sg.1 then -mag else mag)

/-- Go numeric conversion `int64(f)` / `uint64(f)` on an in-range value:
truncation toward zero. -/
def ratTrunc (q : Rat) : Int := q.num.tdiv (q.den : Int)

/-- Models the method `String.Int` of datatypes.go: integer parse, then float
parse truncated, then boolean parse. The pair mirrors the Go `(ret, ok)`
return values. -/
def strInt (s : String) : Int × Bool :=
  match parseInt0 s with
  | some i => (i, true)
  | none =>
    match parseFloat64 s with
    | some f => (ratTrunc f, true)
    | none =>
      match parseBool s with
      | some b => (if b then 1 else 0, true)
      | none => (0, false)

/-- Models the method `String.Uint` of datatypes.go: unsigned parse, then
float parse accepted only when nonnegative, then boolean parse. -/
def strUint (s : String) : Nat × Bool :=
  match parseUint0 s with
  | some u => (u, true)
  | none =>
    match parseFloat64 s with
    | some f =>
      -- Go tests `f >= 0.0`; a rational is nonnegative iff its numerator is.
      if 0 ≤ f.num then ((ratTrunc f).toNat, true)
      else
        match parseBool s with
        | some b => (if b then 1 else 0, true)
        | none => (0, false)
    | none =>
      match parseBool s with
      | some b => (if b then 1 else 0, true)
      | none => (0, false)

/-- Registry operations, for stating invariants over sequences of
`AddParameter` and `RemoveParameter` calls. -/
inductive RegOp where
  | add : String → List String → Int → RegOp
  | remove : String → RegOp

def applyOp (p : Parameter) : RegOp → Parameter
  | .add n as k => AddParameter p n as k
  | .remove n => (RemoveParameter p n).1

def applyOps (p : Parameter) (ops : List RegOp) : Parameter := ops.foldl applyOp p

/-- Collision-freedom precondition for one `AddParameter` call: no nonempty
normalized alias may currently be the canonical name of a reachable
definition other than the one being added or updated. -/
def addOk (p : Parameter) (name0 : String) (aliases0 : List String) : Bool :=
  if (getOptionName name0).length = 0 then true else
  (aliases0.map getOptionName).all (fun a =>
    decide (a.length = 0) ||
    match lookupAlias p.aliases a with
    | none => true
    | some id =>
      id == (match lookupAlias p.aliases (getOptionName name0) with
             | some i => i
             | none => p.heap.length) || (defAt p id).name != a)

def opOk (p : Parameter) : RegOp → Bool
  | .add n as _ => addOk p n as
  | .remove _ => true

/-- A sequence of registry operations each satisfying its precondition at the
state where it runs. -/
def validFrom (p : Parameter) : List RegOp → Bool
  | [] => true
  | op :: rest => opOk p op && validFrom (applyOp p op) rest

/-- The claimed invariant: every definition reachable through some registry
key has its canonical name bound as a key resolving to that same
definition. -/
def canonicalOk (p : Parameter) : Prop :=
  ∀ k id, lookupAlias p.aliases k = some id →
    lookupAlias p.aliases (defAt p id).name = some id

/-- Registry well-formedness: alias-map keys are unique and every bound
definition pointer is a valid heap index. -/
def regWF (p : Parameter) : Prop :=
  (p.aliases.map Prod.fst).Nodup ∧
  ∀ k id, lookupAlias p.aliases k = some id → id < p.heap.length

/-- A concrete evaluation state with three parsed option occurrences. -/
def threeOpts : Parameter := ⟨[], [], [⟨"a", ["1"]⟩, ⟨"b", []⟩, ⟨"c", []⟩], [], ""⟩

/-- C1: the spec claims `--opt=a=b=c` rejoins the fragments after the first
`=` into the single first argument value `a=b=c`. The code instead joins
entries of the outer argument array (`args[i]`, not the split fragments), so
with trailing tokens `x`, `y` it records `a=x=y`, and with no trailing tokens
it hits an index-out-of-range panic. This contradicts the source comment
"subsequent equal signs are treated as part of the extra argument". -/
theorem c1_multiEq_join_uses_outer_args :
    (Evaluate (AddParameter Create "opt" [] 1)
        ["prog", "--opt=a=b=c", "x", "y"]).1.options = [⟨"opt", ["a=x=y"]⟩] ∧
    (Evaluate (AddParameter Create "opt" [] 1) ["prog", "--opt=a=b=c"]).2 =
      some .indexOutOfRange := by
  decide

/-- C2 counterexample: after a failed `Evaluate` call the option list and the
self value are not empty — the occurrence parsed before the failing token
remains visible, refuting the all-or-nothing claim. -/
theorem c2_partial_state_counterexample :
    (Evaluate (AddParameter Create "a" [] 0) ["prog", "--a", "--bad"]).2 =
      some (.unrecognized "bad") ∧
    (Evaluate (AddParameter Create "a" [] 0) ["prog", "--a", "--bad"]).1.options =
      [⟨"a", []⟩] ∧
    (Evaluate (AddParameter Create "a" [] 0) ["prog", "--a", "--bad"]).1.self =
      "prog" := by
  decide

/-- C3: the spec says an out-of-range index (including index = extra count)
returns an empty-string generic. The guard in `GetArgExtra` only rejects
`index > length`, so `index = length` reaches `param.extra[index]` and
panics (modelled by `none`); in-range and negative indices behave as
specified. -/
theorem c3_getArgExtra_at_count_panics :
    GetArgExtra (Evaluate Create ["prog", "file1"]).1 1 = none ∧
    GetArgExtraLength (Evaluate Create ["prog", "file1"]).1 = 1 ∧
    GetArgExtra (Evaluate Create ["prog", "file1"]).1 0 = some "file1" ∧
    GetArgExtra (Evaluate Create ["prog", "file1"]).1 (-1) = some "" ∧
    GetArgExtra (Evaluate Create ["prog", "file1"]).1 2 = some "" := by
  decide

/-- C4 counterexample: the claim states that the bare token `--` does not
qualify as an option; `isOption "--"` is in fact `true` (length 2 > 1 and it
starts with `-`). -/
theorem c4_bare_double_dash_counterexample : isOption "--" = true := by
  decide

/-- C4 amended: `isOption` returns true exactly when the token has length > 2
and starts with `--`, or length > 1 and starts with `-`; the bare token `-`
does not qualify, but the bare token `--` does (through the single-dash
disjunct). -/
theorem c4_isOption_rule :
    (∀ s : String, isOption s = true ↔
      (2 < s.length ∧ s.take 2 = "--") ∨ (1 < s.length ∧ s.take 1 = "-")) ∧
    isOption "-" = false ∧ isOption "--" = true := by
  refine ⟨fun s => ?_, by decide, by decide⟩
  simp [isOption, Bool.or_eq_true, Bool.and_eq_true, decide_eq_true_eq, beq_iff_eq]

/-- C5 counterexample: the claim says `trimArg` removes a leading double
quote whenever the token starts with `"`, so that `trimArg("\"unterminated")`
gives `unterminated`. The code strips quotes only when the trimmed token both
starts and ends with `"`, leaving this token unchanged. -/
theorem c5_unterminated_counterexample :
    ¬ trimArg "\"unterminated" = "unterminated" := by
  decide

/-- C5 amended: `trimArg` trims surrounding whitespace first; then, only when
the trimmed token both starts and ends with a double quote, it removes the
leading quote and then removes a trailing quote if the shortened token still
ends with one. Hence quoted tokens lose their quotes, a token with an
unterminated leading quote is returned unchanged, and single quotes are never
touched. -/
theorem c5_trimArg_examples :
    trimArg " \"hello\" " = "hello" ∧
    trimArg "\"unterminated" = "\"unterminated" ∧
    trimArg "'kept'" = "'kept'" ∧
    trimArg "\"a\"" = "a" ∧
    trimArg "\"" = "" := by
  decide

/-- C6: the checked numeric coercions follow the specified cascades:
`Int` on "true" falls through to the boolean parse and yields 1; "0x1F"
parses via base detection to 31; "3.9" falls through to the float parse and
truncates toward zero to 3; `Uint` on "-5" fails because the unsigned parse
rejects the sign and the float fallback rejects negative values. -/
theorem c6_numeric_cascades :
    strInt "true" = (1, true) ∧
    strInt "0x1F" = (31, true) ∧
    strInt "3.9" = (3, true) ∧
    strUint "-5" = (0, false) := by
  decide

/-- C9 counterexample: after `AddParameter("x", ["y"], 1)` and then
`AddParameter("z", ["x"], 2)`, the definition reachable through key `y` has
canonical name `x`, but key `x` now resolves to the other (fresh) definition:
a reachable definition whose canonical name is rebound, refuting the
invariant as claimed. -/
theorem c9_canonical_rebind_counterexample :
    lookupAlias (AddParameter (AddParameter Create "x" ["y"] 1)
        "z" ["x"] 2).aliases "y" = some 0 ∧
    (defAt (AddParameter (AddParameter Create "x" ["y"] 1) "z" ["x"] 2) 0).name =
      "x" ∧
    lookupAlias (AddParameter (AddParameter Create "x" ["y"] 1)
        "z" ["x"] 2).aliases "x" = some 1 := by
  decide

/-- C2 amended: on any error, the extra list observable after the failed
`Evaluate` call is empty (the call resets it and only fills it after the
option loop finishes without error); the option occurrences parsed before the
failing token and the self value, however, remain visible. -/
theorem c2_error_leaves_extra_empty (p : Parameter) (args : List String)
    (h : (Evaluate p args).2.isSome = true) : (Evaluate p args).1.extra = [] := by
  unfold Evaluate at h ⊢
  by_cases h0 : args.length = 0
  · rw [if_pos h0] at h; simp at h
  · rw [if_neg h0] at h ⊢
    dsimp only at h ⊢
    split at h
    next e heq =>
      dsimp only
      split <;> rfl
    next heq => simp at h

/-- Witness for `c2_error_leaves_extra_empty` at a concrete failing call. -/
theorem c2_error_leaves_extra_empty_witness :
    (Evaluate (AddParameter Create "a" [] 0) ["prog", "--a", "--bad"]).1.extra = [] :=
  c2_error_leaves_extra_empty (AddParameter Create "a" [] 0)
    ["prog", "--a", "--bad"] (by decide)

/-- C8: for an evaluation result with `n` parsed option occurrences,
`GetArgAt (i - n)` returns the same `Argument` as `GetArgAt i` for any
`0 ≤ i < n` (negative indices count from one past the last occurrence), and
any out-of-range index, positive or negative, yields the error result. -/
theorem c8_getArgAt_negative_indexing (p : Parameter) (i : Int) :
    (0 ≤ i → i < (p.options.length : Int) →
      GetArgAt p (i - (p.options.length : Int)) = GetArgAt p i) ∧
    ((i < -((p.options.length : Int)) ∨ (p.options.length : Int) ≤ i) →
      GetArgAt p i =
        Except.error "Parameter.GetArgNameByPosition: Invalid position") := by
  constructor
  · intro h0 hlt
    unfold GetArgAt
    dsimp only
    have e1 : (if i - (p.options.length : Int) < 0 then
        (p.options.length : Int) + (i - (p.options.length : Int))
      else i - (p.options.length : Int)) = i := by
      rw [if_pos (by omega)]; omega
    have e2 : (if i < 0 then (p.options.length : Int) + i else i) = i := by
      rw [if_neg (by omega)]
    rw [e1, e2]
  · intro h
    unfold GetArgAt
    dsimp only
    rcases h with h | h
    · have hn : (0 : Int) ≤ (p.options.length : Int) := by positivity
      rw [if_pos (by omega : i < 0), if_pos (Or.inl (by omega :
        (p.options.length : Int) + i < 0))]
    · rw [if_neg (by omega : ¬ i < 0), if_pos (Or.inr h)]

/-- Witness for `c8_getArgAt_negative_indexing` on a state with three
occurrences: `GetArgAt (-1)` equals `GetArgAt 2`, and index 3 errors. -/
theorem c8_getArgAt_negative_indexing_witness :
    GetArgAt threeOpts (2 - (threeOpts.options.length : Int)) = GetArgAt threeOpts 2 ∧
    GetArgAt threeOpts 3 =
      Except.error "Parameter.GetArgNameByPosition: Invalid position" :=
  ⟨(c8_getArgAt_negative_indexing threeOpts 2).1 (by decide) (by decide),
   (c8_getArgAt_negative_indexing threeOpts 3).2 (Or.inr (by decide))⟩

/-- `evalArg` on a recognized option of arity 0: the occurrence is recorded
with an empty argument-value list, whether or not the token carried `=`-text,
and exactly one token is consumed. -/
theorem evalArg_arity0 (q : Parameter) (args : List String) (i : Nat)
    (tok t0 : String) (ts : List String) (id : Nat)
    (hlen : i < args.length) (htok : args.getD i "" = tok)
    (h2 : isOption tok = true) (h3 : splitEq tok = t0 :: ts)
    (h4 : lookupAlias q.aliases (getOptionName t0) = some id)
    (h5 : (defAt q id).numArgs = 0) :
    evalArg q args i =
      ⟨getLongOptionName q (getOptionName t0),
       ⟨getLongOptionName q (getOptionName t0), []⟩, i + 1, none⟩ := by
  unfold evalArg
  rw [if_neg (by omega)]
  simp only [htok, h2, h3, h4, h5]
  simp
  omega

/-- `evalArg` on a recognized `=`-free option token with fewer remaining
tokens than its arity: the insufficient-arguments error, carrying the
available and needed counts. -/
theorem evalArg_insuff_noEq (q : Parameter) (args : List String) (i : Nat)
    (tok t0 : String) (id : Nat)
    (hlen : i < args.length) (htok : args.getD i "" = tok)
    (h2 : isOption tok = true) (h3 : splitEq tok = [t0])
    (h4 : lookupAlias q.aliases (getOptionName t0) = some id)
    (h5 : (args.length : Int) - ((i + 1 : Nat) : Int) < (defAt q id).numArgs) :
    evalArg q args i =
      ⟨getOptionName t0, ⟨"", []⟩, i + 1,
       some (.insufficient ((args.length : Int) - ((i + 1 : Nat) : Int))
         (defAt q id).numArgs)⟩ := by
  unfold evalArg
  rw [if_neg (by omega)]
  simp only [htok, h2, h3, h4]
  simp
  omega

/-- `evalArg` on a recognized option token carrying one `=`-value with fewer
remaining tokens than its arity minus one: the insufficient-arguments error,
with the needed count reduced by the folded-in value. -/
theorem evalArg_insuff_eq (q : Parameter) (args : List String) (i : Nat)
    (tok t0 t1 : String) (id : Nat)
    (hlen : i < args.length) (htok : args.getD i "" = tok)
    (h2 : isOption tok = true) (h3 : splitEq tok = [t0, t1])
    (h4 : lookupAlias q.aliases (getOptionName t0) = some id)
    (hpos : 0 < (defAt q id).numArgs)
    (h5 : (args.length : Int) - ((i + 1 : Nat) : Int) < (defAt q id).numArgs - 1) :
    evalArg q args i =
      ⟨getOptionName t0, ⟨"", [trimArg t1]⟩, i + 1,
       some (.insufficient ((args.length : Int) - ((i + 1 : Nat) : Int))
         ((defAt q id).numArgs - 1))⟩ := by
  unfold evalArg
  rw [if_neg (by omega)]
  simp only [htok, h2, h3, h4]
  simp [hpos, joinIdx]
  omega

/-- `Evaluate` on a non-option first token followed by an option token on
which `evalArg` errors: the call returns that error with empty option and
extra lists and the self value set. -/
theorem evaluate_first_option_err (p : Parameter) (s tok : String)
    (rest : List String) (nm : String) (ag : OptionEntry) (ni : Nat) (e : EvalErr)
    (h1 : isOption s = false)
    (hst : evalArg ⟨p.heap, p.aliases, [], [], s⟩ (s :: tok :: rest) 1 =
      ⟨nm, ag, ni, some e⟩) :
    Evaluate p (s :: tok :: rest) = (⟨p.heap, p.aliases, [], [], s⟩, some e) := by
  unfold Evaluate
  rw [if_neg (by simp)]
  dsimp only [reset]
  have hlt : 1 < rest.length + 1 + 1 := by omega
  simp only [List.headD_cons, h1, List.length_cons, if_true, eq_self_iff_true,
    evalLoop, hlt, hst]

/-- `Evaluate` on exactly a non-option first token and one option token that
`evalArg` parses successfully consuming the whole input: the single
occurrence is recorded and the extra list stays empty. -/
theorem evaluate_single_option_ok (p : Parameter) (s tok : String)
    (nm nm2 : String) (vs : List String)
    (h1 : isOption s = false) (hnm : ¬ nm = "")
    (hst : evalArg ⟨p.heap, p.aliases, [], [], s⟩ [s, tok] 1 =
      ⟨nm, ⟨nm2, vs⟩, 2, none⟩) :
    Evaluate p [s, tok] = (⟨p.heap, p.aliases, [⟨nm2, vs⟩], [], s⟩, none) := by
  unfold Evaluate
  rw [if_neg (by simp)]
  dsimp only [reset]
  simp only [List.headD_cons, h1, List.length_cons, List.length_nil, if_true,
    eq_self_iff_true, evalLoop, hst, hnm]
  simp

/-- C7: for a recognized option whose remaining needed argument count (its
arity, minus one when a post-`=` value was folded in) exceeds the number of
tokens left, `Evaluate` fails with the too-few-option-arguments error stating
the available and needed counts, and the whole call is aborted with no
options and no extra arguments recorded. -/
theorem c7_insufficient_args (p : Parameter) (s tok t0 t1 : String)
    (rest : List String) (id : Nat) (need : Int)
    (h1 : isOption s = false) (h2 : isOption tok = true)
    (h4 : lookupAlias p.aliases (getOptionName t0) = some id)
    (h3 : (splitEq tok = [t0] ∧ need = (defAt p id).numArgs) ∨
          (splitEq tok = [t0, t1] ∧ 0 < (defAt p id).numArgs ∧
            need = (defAt p id).numArgs - 1))
    (h5 : (rest.length : Int) < need) :
    Evaluate p (s :: tok :: rest) =
      (⟨p.heap, p.aliases, [], [], s⟩,
        some (.insufficient (rest.length : Int) need)) := by
  have hq : defAt (⟨p.heap, p.aliases, [], [], s⟩ : Parameter) id = defAt p id := rfl
  rcases h3 with ⟨he, hn⟩ | ⟨he, hpos, hn⟩
  · have hst := evalArg_insuff_noEq ⟨p.heap, p.aliases, [], [], s⟩
      (s :: tok :: rest) 1 tok t0 id (by simp) rfl h2 he h4
      (by simp only [List.length_cons, hq]; push_cast; omega)
    rw [evaluate_first_option_err p s tok rest _ _ _ _ h1 hst]
    simp only [Prod.mk.injEq, Option.some.injEq, EvalErr.insufficient.injEq,
      List.length_cons, hq]
    refine ⟨trivial, ?_, ?_⟩ <;> push_cast <;> omega
  · have hst := evalArg_insuff_eq ⟨p.heap, p.aliases, [], [], s⟩
      (s :: tok :: rest) 1 tok t0 t1 id (by simp) rfl h2 he h4 (by rw [hq]; omega)
      (by simp only [List.length_cons, hq]; push_cast; omega)
    rw [evaluate_first_option_err p s tok rest _ _ _ _ h1 hst]
    simp only [Prod.mk.injEq, Option.some.injEq, EvalErr.insufficient.injEq,
      List.length_cons, hq]
    refine ⟨trivial, ?_, ?_⟩ <;> push_cast <;> omega

/-- Witness for `c7_insufficient_args`: arity 2 for `position` on input
`["prog", "--position", "1"]` yields the error with available 1, needed 2. -/
theorem c7_insufficient_args_witness :
    Evaluate (AddParameter Create "position" [] 2) ["prog", "--position", "1"] =
      (⟨(AddParameter Create "position" [] 2).heap,
        (AddParameter Create "position" [] 2).aliases, [], [], "prog"⟩,
       some (.insufficient ((["1"] : List String).length : Int) 2)) :=
  c7_insufficient_args (AddParameter Create "position" [] 2) "prog" "--position"
    "--position" "" ["1"] 0 2 (by decide) (by decide) (by decide)
    (Or.inl ⟨by decide, by decide⟩) (by decide)

/-- C10: evaluating a token `--name=value` for an option registered with
arity 0 succeeds and records an occurrence with an empty argument-value
list: the post-`=` text is discarded, is not stored as an argument value,
and does not become an extra argument. -/
theorem c10_arity0_eq_value_discarded (p : Parameter) (s tok t0 t1 : String)
    (ts : List String) (id : Nat)
    (h1 : isOption s = false) (h2 : isOption tok = true)
    (h3 : splitEq tok = t0 :: t1 :: ts)
    (h4 : lookupAlias p.aliases (getOptionName t0) = some id)
    (h5 : (defAt p id).numArgs = 0)
    (h6 : ¬ getLongOptionName p (getOptionName t0) = "") :
    Evaluate p [s, tok] =
      (⟨p.heap, p.aliases, [⟨getLongOptionName p (getOptionName t0), []⟩], [], s⟩,
        none) := by
  have hst := evalArg_arity0 ⟨p.heap, p.aliases, [], [], s⟩ [s, tok] 1 tok t0
    (t1 :: ts) id (by simp) rfl h2 h3 h4 h5
  exact evaluate_single_option_ok p s tok _ _ _ h1 h6 hst

/-- Witness for `c10_arity0_eq_value_discarded` on `--verbose=yes` with
`verbose` registered at arity 0. -/
theorem c10_arity0_eq_value_discarded_witness :
    Evaluate (AddParameter Create "verbose" [] 0) ["prog", "--verbose=yes"] =
      (⟨(AddParameter Create "verbose" [] 0).heap,
        (AddParameter Create "verbose" [] 0).aliases,
        [⟨getLongOptionName (AddParameter Create "verbose" [] 0)
            (getOptionName "--verbose"), []⟩], [], "prog"⟩, none) :=
  c10_arity0_eq_value_discarded (AddParameter Create "verbose" [] 0) "prog"
    "--verbose=yes" "--verbose" "yes" [] 0 (by decide) (by decide) (by decide)
    (by decide) (by decide) (by decide)


theorem getD_set_elem {α : Type} (l : List α) (i j : Nat) (d dflt : α) :
    (l.set i d).getD j dflt = if i = j ∧ i < l.length then d else l.getD j dflt := by
  induction l generalizing i j with
  | nil => simp [List.set]
  | cons a l ih =>
    cases i with
    | zero =>
      cases j with
      | zero => simp
      | succ j => simp
    | succ i =>
      cases j with
      | zero => simp
      | succ j =>
        simp only [List.set, List.getD_cons_succ, List.length_cons, ih]
        by_cases h : i = j ∧ i < l.length
        · obtain ⟨he, hl⟩ := h
          rw [if_pos ⟨he, hl⟩,
            if_pos ⟨show i + 1 = j + 1 by omega, show i + 1 < l.length + 1 by omega⟩]
        · rw [if_neg h, if_neg (by omega)]

theorem getD_append_elem {α : Type} (l : List α) (b : α) (j : Nat) (dflt : α) :
    (l ++ [b]).getD j dflt =
      if j < l.length then l.getD j dflt
      else if j = l.length then b else dflt := by
  induction l generalizing j with
  | nil => cases j <;> simp
  | cons a l ih =>
    cases j with
    | zero => simp
    | succ j =>
      simp only [List.cons_append, List.getD_cons_succ, List.length_cons, ih]
      by_cases h : j < l.length
      · rw [if_pos h, if_pos (show j + 1 < l.length + 1 by omega)]
      · rw [if_neg h, if_neg (show ¬ j + 1 < l.length + 1 by omega)]
        by_cases h2 : j = l.length
        · rw [if_pos h2, if_pos (show j + 1 = l.length + 1 by omega)]
        · rw [if_neg h2, if_neg (show ¬ j + 1 = l.length + 1 by omega)]

theorem find?_filter_eq {α : Type} (m : List α) (pr q : α → Bool)
    (h : ∀ e, q e = true → pr e = true) : (m.filter pr).find? q = m.find? q := by
  induction m with
  | nil => rfl
  | cons a m ih =>
    by_cases hq : q a = true
    · rw [List.filter_cons, if_pos (h a hq)]
      rw [List.find?_cons_of_pos _ hq, List.find?_cons_of_pos _ hq]
    · have hq2 : q a = false := by revert hq; cases q a <;> simp
      rw [List.find?_cons_of_neg _ (by simp [hq2])]
      rw [List.filter_cons]
      by_cases hp : pr a = true
      · rw [if_pos hp, List.find?_cons_of_neg _ (by simp [hq2])]
        exact ih
      · rw [if_neg hp]
        exact ih

theorem lookup_mapInsert (m : List (String × Nat)) (k : String) (v : Nat)
    (k2 : String) :
    lookupAlias (mapInsert m k v) k2 =
      if k2 = k then some v else lookupAlias m k2 := by
  unfold lookupAlias mapInsert
  by_cases h : k2 = k
  · subst h
    rw [if_pos rfl, List.find?_cons_of_pos _ (by simp)]
    rfl
  · rw [if_neg h, List.find?_cons_of_neg _ (by simp; intro hk; exact h hk.symm)]
    rw [find?_filter_eq]
    intro e he
    simp at he ⊢
    rw [he]
    intro hk
    exact h hk

theorem lookup_insAll (t : Nat) (ks : List String) (m : List (String × Nat))
    (k2 : String) :
    lookupAlias (insAll m t ks) k2 =
      if k2 ∈ ks ∧ 0 < k2.length then some t else lookupAlias m k2 := by
  induction ks generalizing m with
  | nil => simp [insAll]
  | cons a ks ih =>
    unfold insAll
    simp only [List.foldl_cons]
    rw [show List.foldl (fun m2 a => if 0 < a.length then mapInsert m2 a t else m2)
        (if 0 < a.length then mapInsert m a t else m) ks =
      insAll (if 0 < a.length then mapInsert m a t else m) t ks from rfl]
    rw [ih]
    by_cases hm : k2 ∈ ks ∧ 0 < k2.length
    · rw [if_pos hm, if_pos ⟨List.mem_cons_of_mem _ hm.1, hm.2⟩]
    · rw [if_neg hm]
      by_cases ha : 0 < a.length
      · rw [if_pos ha, lookup_mapInsert]
        by_cases hk : k2 = a
        · subst hk
          rw [if_pos rfl, if_pos ⟨List.mem_cons_self _ _, ha⟩]
        · rw [if_neg hk, if_neg (by
            rintro ⟨hmem, hl⟩
            rcases List.mem_cons.mp hmem with h | h
            · exact hk h
            · exact hm ⟨h, hl⟩)]
      · rw [if_neg ha, if_neg (by
          rintro ⟨hmem, hl⟩
          rcases List.mem_cons.mp hmem with h | h
          · rw [h] at hl; exact ha hl
          · exact hm ⟨h, hl⟩)]

theorem lookup_some_mem_keys (m : List (String × Nat)) (k : String) (v : Nat)
    (h : lookupAlias m k = some v) : k ∈ m.map Prod.fst := by
  unfold lookupAlias at h
  cases hf : m.find? (fun e => e.1 == k) with
  | none => rw [hf] at h; simp at h
  | some e =>
    rw [hf] at h
    have he := List.find?_some hf
    have hmem := List.mem_of_find?_eq_some hf
    simp at he
    exact List.mem_map.mpr ⟨e, hmem, he⟩

theorem lookup_not_mem_none (m : List (String × Nat)) (k : String)
    (h : k ∉ m.map Prod.fst) : lookupAlias m k = none := by
  cases hl : lookupAlias m k with
  | none => rfl
  | some v => exact absurd (lookup_some_mem_keys m k v hl) h

theorem nodup_mapInsert (m : List (String × Nat)) (k : String) (v : Nat)
    (h : (m.map Prod.fst).Nodup) : ((mapInsert m k v).map Prod.fst).Nodup := by
  unfold mapInsert
  simp only [List.map_cons]
  rw [List.nodup_cons]
  constructor
  · intro hmem
    rcases List.mem_map.mp hmem with ⟨e, hin, hfst⟩
    have := List.of_mem_filter hin
    simp at this
    exact this hfst
  · exact h.sublist (List.Sublist.map Prod.fst (List.filter_sublist m))

theorem nodup_insAll (t : Nat) (ks : List String) (m : List (String × Nat))
    (h : (m.map Prod.fst).Nodup) : ((insAll m t ks).map Prod.fst).Nodup := by
  induction ks generalizing m with
  | nil => exact h
  | cons a ks ih =>
    unfold insAll
    simp only [List.foldl_cons]
    rw [show List.foldl (fun m2 a => if 0 < a.length then mapInsert m2 a t else m2)
        (if 0 < a.length then mapInsert m a t else m) ks =
      insAll (if 0 < a.length then mapInsert m a t else m) t ks from rfl]
    apply ih
    by_cases ha : 0 < a.length
    · rw [if_pos ha]; exact nodup_mapInsert m a t h
    · rw [if_neg ha]; exact h

theorem lookup_filter_char (m : List (String × Nat)) (pr : String × Nat → Bool)
    (hnd : (m.map Prod.fst).Nodup) (k : String) :
    lookupAlias (m.filter pr) k =
      (lookupAlias m k).bind (fun v => if pr (k, v) = true then some v else none) := by
  induction m with
  | nil => rfl
  | cons e m ih =>
    simp only [List.map_cons, List.nodup_cons] at hnd
    obtain ⟨hnotin, hnd2⟩ := hnd
    by_cases hk : e.1 = k
    · have hke : (k, e.2) = e := by
        cases e; simp at hk ⊢; exact hk.symm
      have hlk : lookupAlias (e :: m) k = some e.2 := by
        unfold lookupAlias
        rw [List.find?_cons_of_pos _ (by simp [hk])]
        rfl
      rw [hlk, Option.some_bind, hke]
      rw [List.filter_cons]
      by_cases hp : pr e = true
      · rw [if_pos hp, if_pos hp]
        unfold lookupAlias
        rw [List.find?_cons_of_pos _ (by simp [hk])]
        rfl
      · rw [if_neg hp, if_neg hp]
        apply lookup_not_mem_none
        intro hmem
        apply hnotin
        rw [← hk] at hmem
        exact List.map_subset _ (List.filter_sublist m).subset hmem
    · have hlk : lookupAlias (e :: m) k = lookupAlias m k := by
        unfold lookupAlias
        rw [List.find?_cons_of_neg _ (by simp [hk])]
      rw [hlk, List.filter_cons]
      by_cases hp : pr e = true
      · rw [if_pos hp]
        have h2 : lookupAlias (e :: m.filter pr) k = lookupAlias (m.filter pr) k := by
          unfold lookupAlias
          rw [List.find?_cons_of_neg _ (by simp [hk])]
        rw [h2, ih hnd2]
      · rw [if_neg hp, ih hnd2]

theorem AddParameter_eq_some (p : Parameter) (n0 : String) (als0 : List String)
    (k0 : Int) (t : Nat) (hn : ¬ (getOptionName n0).length = 0)
    (hlook : lookupAlias p.aliases (getOptionName n0) = some t) :
    AddParameter p n0 als0 k0 =
      { p with
        heap := p.heap.set t ⟨(defAt p t).name, if k0 < 0 then 0 else k0⟩,
        aliases := insAll (mapInsert p.aliases (getOptionName n0) t) t
          (als0.map getOptionName) } := by
  unfold AddParameter
  rw [if_neg hn]
  dsimp only
  rw [hlook]

theorem AddParameter_eq_none (p : Parameter) (n0 : String) (als0 : List String)
    (k0 : Int) (hn : ¬ (getOptionName n0).length = 0)
    (hlook : lookupAlias p.aliases (getOptionName n0) = none) :
    AddParameter p n0 als0 k0 =
      { p with
        heap := p.heap ++ [⟨getOptionName n0, if k0 < 0 then 0 else k0⟩],
        aliases := insAll (mapInsert p.aliases (getOptionName n0) p.heap.length)
          p.heap.length (als0.map getOptionName) } := by
  unfold AddParameter
  rw [if_neg hn]
  dsimp only
  rw [hlook]

theorem name_getD_set (H : List ParamDefn) (t : Nat) (x : Int) (j : Nat) :
    ((H.set t ⟨(H.getD t ⟨"", 0⟩).name, x⟩).getD j ⟨"", 0⟩).name =
      (H.getD j ⟨"", 0⟩).name := by
  rw [getD_set_elem]
  by_cases h : t = j ∧ t < H.length
  · rw [if_pos h, h.1]
  · rw [if_neg h]

/-- A collision-free `AddParameter` call preserves registry well-formedness
and the canonical binding invariant. -/
theorem addParameter_preserves (p : Parameter) (n0 : String) (als0 : List String)
    (k0 : Int) (hwf : regWF p) (hck : canonicalOk p)
    (hok : addOk p n0 als0 = true) :
    regWF (AddParameter p n0 als0 k0) ∧ canonicalOk (AddParameter p n0 als0 k0) := by
  by_cases hn : (getOptionName n0).length = 0
  · unfold AddParameter
    rw [if_pos hn]
    exact ⟨hwf, hck⟩
  have hokA : ∀ a ∈ als0.map getOptionName, 0 < a.length → ∀ id2,
      lookupAlias p.aliases a = some id2 → (defAt p id2).name = a →
      id2 = (match lookupAlias p.aliases (getOptionName n0) with
        | some i => i | none => p.heap.length) := by
    intro a ha hla id2 hid2 hname
    unfold addOk at hok
    rw [if_neg hn, List.all_eq_true] at hok
    have h3 := hok a ha
    rw [hid2] at h3
    simp at h3
    rcases h3 with h3 | h3 | h3
    · omega
    · exact h3
    · exact absurd hname h3
  rcases hlook : lookupAlias p.aliases (getOptionName n0) with _ | t
  · -- fresh definition appended at index p.heap.length
    rw [hlook] at hokA
    dsimp only at hokA
    rw [AddParameter_eq_none p n0 als0 k0 hn hlook]
    set n := getOptionName n0 with hndef
    set nA : Int := if k0 < 0 then 0 else k0 with hnAdef
    set als := als0.map getOptionName with halsdef
    set HH : List ParamDefn := p.heap ++ [⟨n, nA⟩] with hHHdef
    set M := insAll (mapInsert p.aliases n p.heap.length) p.heap.length als with hMdef
    have hlookM : ∀ k2, lookupAlias M k2 =
        if k2 ∈ als ∧ 0 < k2.length then some p.heap.length
        else if k2 = n then some p.heap.length else lookupAlias p.aliases k2 := by
      intro k2
      rw [hMdef, lookup_insAll, lookup_mapInsert]
    have hnameAt : ∀ j, j < p.heap.length →
        (HH.getD j ⟨"", 0⟩).name = (defAt p j).name := by
      intro j hj
      rw [hHHdef, getD_append_elem, if_pos hj]
      rfl
    have hnameT : (HH.getD p.heap.length ⟨"", 0⟩).name = n := by
      rw [hHHdef, getD_append_elem, if_neg (by omega), if_pos rfl]
    constructor
    · constructor
      · exact nodup_insAll _ _ _ (nodup_mapInsert _ _ _ hwf.1)
      · intro k2 id2 h2
        have h2a : lookupAlias M k2 = some id2 := h2
        show id2 < HH.length
        have hHlen : HH.length = p.heap.length + 1 := by
          rw [hHHdef]; simp
        rw [hlookM] at h2a
        split_ifs at h2a with hA hB
        · cases h2a; omega
        · cases h2a; omega
        · have := hwf.2 k2 id2 h2a
          omega
    · intro k2 id2 h2
      have h2a : lookupAlias M k2 = some id2 := h2
      show lookupAlias M (HH.getD id2 ⟨"", 0⟩).name = some id2
      rw [hlookM] at h2a
      rw [hlookM]
      split_ifs at h2a with hA hB
      · cases h2a
        rw [hnameT]
        split_ifs <;> rfl
      · cases h2a
        rw [hnameT]
        split_ifs <;> rfl
      · have ht2 : id2 < p.heap.length := hwf.2 k2 id2 h2a
        rw [hnameAt id2 ht2]
        have hcn := hck k2 id2 h2a
        split_ifs with hC hD
        · have := hokA (defAt p id2).name hC.1 hC.2 id2 hcn rfl
          rw [this]
        · rw [hD, hlook] at hcn
          cases hcn
        · exact hcn
  · -- existing definition updated in place
    rw [hlook] at hokA
    dsimp only at hokA
    rw [AddParameter_eq_some p n0 als0 k0 t hn hlook]
    set n := getOptionName n0 with hndef
    set nA : Int := if k0 < 0 then 0 else k0 with hnAdef
    set als := als0.map getOptionName with halsdef
    set HH : List ParamDefn := p.heap.set t ⟨(defAt p t).name, nA⟩ with hHHdef
    set M := insAll (mapInsert p.aliases n t) t als with hMdef
    have hlookM : ∀ k2, lookupAlias M k2 =
        if k2 ∈ als ∧ 0 < k2.length then some t
        else if k2 = n then some t else lookupAlias p.aliases k2 := by
      intro k2
      rw [hMdef, lookup_insAll, lookup_mapInsert]
    have ht : t < p.heap.length := hwf.2 n t hlook
    have hnameAt : ∀ j, (HH.getD j ⟨"", 0⟩).name = (defAt p j).name := by
      intro j
      rw [hHHdef]
      exact name_getD_set p.heap t nA j
    constructor
    · constructor
      · exact nodup_insAll _ _ _ (nodup_mapInsert _ _ _ hwf.1)
      · intro k2 id2 h2
        have h2a : lookupAlias M k2 = some id2 := h2
        show id2 < HH.length
        have hHlen : HH.length = p.heap.length := by
          rw [hHHdef, List.length_set]
        rw [hlookM] at h2a
        split_ifs at h2a with hA hB
        · cases h2a; omega
        · cases h2a; omega
        · have := hwf.2 k2 id2 h2a
          omega
    · intro k2 id2 h2
      have h2a : lookupAlias M k2 = some id2 := h2
      show lookupAlias M (HH.getD id2 ⟨"", 0⟩).name = some id2
      rw [hlookM] at h2a
      rw [hlookM, hnameAt id2]
      have hcnT := hck n t hlook
      split_ifs at h2a with hA hB
      · cases h2a
        split_ifs with hC hD
        · rfl
        · rfl
        · exact hcnT
      · cases h2a
        split_ifs with hC hD
        · rfl
        · rfl
        · exact hcnT
      · have hcn := hck k2 id2 h2a
        split_ifs with hC hD
        · have := hokA (defAt p id2).name hC.1 hC.2 id2 hcn rfl
          rw [this]
        · rw [hD, hlook] at hcn
          cases hcn
          rfl
        · exact hcn

/-- `RemoveParameter` preserves registry well-formedness and the canonical
binding invariant. -/
theorem removeParameter_preserves (p : Parameter) (n0 : String)
    (hwf : regWF p) (hck : canonicalOk p) :
    regWF (RemoveParameter p n0).1 ∧ canonicalOk (RemoveParameter p n0).1 := by
  unfold RemoveParameter
  rcases hlook : lookupAlias p.aliases (getOptionName n0) with _ | idr
  · exact ⟨hwf, hck⟩
  set pred : String × Nat → Bool :=
    fun e => (defAt p e.2).name != (defAt p idr).name with hpreddef
  have hchar : ∀ k2 id2, lookupAlias (p.aliases.filter pred) k2 = some id2 ↔
      (lookupAlias p.aliases k2 = some id2 ∧ pred (k2, id2) = true) := by
    intro k2 id2
    rw [lookup_filter_char _ _ hwf.1]
    cases hl : lookupAlias p.aliases k2 with
    | none => simp
    | some v =>
      simp only [Option.some_bind]
      by_cases hp : pred (k2, v) = true
      · rw [if_pos hp]
        constructor
        · intro he; cases he; exact ⟨rfl, hp⟩
        · rintro ⟨he, _⟩; cases he; rfl
      · rw [if_neg hp]
        constructor
        · intro he; cases he
        · rintro ⟨he, hpp⟩; cases he; exact absurd hpp hp
  constructor
  · constructor
    · exact hwf.1.sublist (List.Sublist.map Prod.fst (List.filter_sublist p.aliases))
    · intro k2 id2 h2
      have h2a : lookupAlias (p.aliases.filter pred) k2 = some id2 := h2
      rw [hchar] at h2a
      exact hwf.2 k2 id2 h2a.1
  · intro k2 id2 h2
    have h2a : lookupAlias (p.aliases.filter pred) k2 = some id2 := h2
    rw [hchar] at h2a
    obtain ⟨hl2, hp2⟩ := h2a
    show lookupAlias (p.aliases.filter pred) (defAt p id2).name = some id2
    rw [hchar]
    exact ⟨hck k2 id2 hl2, hp2⟩

/-- C9 amended: after every finite sequence of `AddParameter` and
`RemoveParameter` calls starting from the empty registry, in which no
`AddParameter` call passes as an alias a name that is currently the canonical
name of a reachable definition other than the one being added or updated,
every definition reachable through some registry key has its canonical name
present as a key that resolves to that same definition. (Without the
collision restriction the invariant fails, see the counterexample.) -/
theorem c9_canonical_invariant_amended (ops : List RegOp)
    (h : validFrom Create ops = true) :
    canonicalOk (applyOps Create ops) := by
  have base : regWF Create ∧ canonicalOk Create := by
    refine ⟨⟨by simp [Create], ?_⟩, ?_⟩
    · intro k id hl
      simp [Create, lookupAlias] at hl
    · intro k id hl
      simp [Create, lookupAlias] at hl
  have main : ∀ (ops2 : List RegOp) (p : Parameter), regWF p → canonicalOk p →
      validFrom p ops2 = true →
      regWF (applyOps p ops2) ∧ canonicalOk (applyOps p ops2) := by
    intro ops2
    induction ops2 with
    | nil => intro p hwf hck _; exact ⟨hwf, hck⟩
    | cons op rest ih =>
      intro p hwf hck hv
      unfold validFrom at hv
      rw [Bool.and_eq_true] at hv
      unfold applyOps
      rw [List.foldl_cons]
      have hstep : regWF (applyOp p op) ∧ canonicalOk (applyOp p op) := by
        cases op with
        | add nn aa kk => exact addParameter_preserves p nn aa kk hwf hck hv.1
        | remove nn => exact removeParameter_preserves p nn hwf hck
      exact ih (applyOp p op) hstep.1 hstep.2 hv.2
  exact (main ops Create base.1 base.2 h).2

/-- Witness for `c9_canonical_invariant_amended` on a concrete operation
sequence exercising add, in-place update, remove, and aliasing. -/
theorem c9_canonical_invariant_amended_witness :
    validFrom Create [RegOp.add "a" ["b"] 1, RegOp.add "b" [] 2,
      RegOp.remove "a", RegOp.add "c" ["d"] 1] = true ∧
    canonicalOk (applyOps Create [RegOp.add "a" ["b"] 1, RegOp.add "b" [] 2,
      RegOp.remove "a", RegOp.add "c" ["d"] 1]) :=
  ⟨by decide, c9_canonical_invariant_amended _ (by decide)⟩

end Cmdargs
